import Mathlib

/-!
Verification of the bitcoin.de trading scripts web application
(`webgui/price_chart`): the API client (`apis.py`), the data model
(`models.py`) and the ingestion view (`views.py`), shallowly embedded in
Lean 4.  HTTP transport is modelled by an oracle `http : String → HttpResult`
standing for `requests.get`; a Python exception escaping a function is
modelled by the `Except.error` constructor, a normal return by `Except.ok`.
The cryptographic primitives (MD5, HMAC-SHA256) are library functions, so
they are abstracted as function parameters; everything the repository code
does around them is embedded faithfully.
-/

/-- A Python exception relevant to this client: an exception raised by the
HTTP library (`requests.exceptions.ConnectionError`, `Timeout`, ...), or a
`KeyError` from a dict subscript. -/
inductive PyExn where
  | transport (msg : String)
  | keyError (key : String)
deriving DecidableEq

/-- A JSON scalar value as used by the modelled response bodies. -/
inductive JVal where
  | num (n : Int)
  | str (s : String)
deriving DecidableEq

/-- A parsed JSON object body: an association list of fields, standing for a
Python dict (the APIs under consideration always answer with objects). -/
abbrev JObj : Type := List (String × JVal)

/-- Python dict subscript lookup, as an `Option`: `none` when the key is
absent (where Python would raise `KeyError`). -/
def jlookup (o : JObj) (k : String) : Option JVal :=
  (o.find? (fun kv => kv.1 == k)).map (fun kv => kv.2)

/-- An HTTP response: status code and the result of trying to parse the body
as JSON (`none` when the body is malformed and `response.json()` would
raise). -/
structure HttpResponse where
  status : Nat
  jsonBody : Option JObj
deriving DecidableEq

/-- Outcome of `requests.get(url)`: either the call raises (transport error:
network unreachable, timeout, ...) or it returns a response object. -/
inductive HttpResult where
  | raise (e : PyExn)
  | success (r : HttpResponse)
deriving DecidableEq

/-- Model of `BaseQuerry.query_url` from `apis.py`: perform `requests.get`; on a
non-200 status log and return `None`, otherwise return the response.  There
is no try/except around `requests.get`, so a transport exception propagates
to the caller (modelled by `Except.error`). -/
def query_url (http : String → HttpResult) (url : String) :
    Except PyExn (Option HttpResponse) :=
  match http url with
  | .raise e => .error e
  | .success r => if r.status ≠ 200 then .ok none else .ok (some r)

/-- Model of `BaseQuerry.query_json` from `apis.py`: call `query_url`; on `None`
return `None`; otherwise try `response.json()` and return `None` when the
body does not parse (that call is wrapped in try/except).  An exception
escaping `query_url` still propagates. -/
def query_json (http : String → HttpResult) (url : String) :
    Except PyExn (Option JObj) :=
  match query_url http url with
  | .error e => .error e
  | .ok none => .ok none
  | .ok (some r) => .ok r.jsonBody

/-- Model of `BCdeSession` from `apis.py`: API credentials plus the mutable
`api_credits` counter (initialised to 20 by default; Python assigns whatever
JSON value the server reports, hence `JVal`). -/
structure BCdeSession where
  c_public_key : String
  c_private_key : String
  api_credits : JVal := JVal.num 20
deriving DecidableEq

/-- The constant `C_API_URL` set in `BCdeSession.__init__`. -/
def C_API_URL : String := "https://api.bitcoin.de/v2"

/-- Model of `BCdeSession.generate_api_signature` from `apis.py`, with the library
hash primitives abstracted: `md5hex` stands for
`hashlib.md5(...).hexdigest()` and `hmacSha256hex key msg` for
`hmac.new(key, msg, sha256).hexdigest()`.  `post_params` models the optional
dict of request parameters; Python renders each entry as `key=value`, sorts
the rendered strings (`list.sort`, modelled by `insertionSort` on the
code-point order), joins them with `?`, hashes that with MD5 and then HMACs
`METHOD#URL#PUBLIC_KEY#NONCE#HASHED_QUERY` with the private key. -/
def BCdeSession.generate_api_signature
    (md5hex : String → String) (hmacSha256hex : String → String → String)
    (s : BCdeSession) (method url nonce : String)
    (post_params : Option (List (String × String))) : String :=
  let sorted_params : List String :=
    match post_params with
    | none => []
    | some ps =>
      if ps.isEmpty then []
      else List.insertionSort (· ≤ ·) (ps.map (fun kv => kv.1 ++ "=" ++ kv.2))
  let query_string := String.intercalate "?" sorted_params
  let hashed_query_string := md5hex query_string
  let hmac_data :=
    method ++ "#" ++ url ++ "#" ++ s.c_public_key ++ "#" ++ nonce ++ "#"
      ++ hashed_query_string
  hmacSha256hex s.c_private_key hmac_data

/-- Canonical query string as the spec words it: render each parameter as
`key=value`, lexicographically sort the resulting strings, join with `?`;
the empty string when the mapping is absent (or empty).  Stated with
`mergeSort`, independently of the `insertionSort` used to model the
implementation. -/
def canonical_query_spec (params : Option (List (String × String))) : String :=
  match params with
  | none => ""
  | some ps =>
    String.intercalate "?"
      ((ps.map (fun kv => kv.1 ++ "=" ++ kv.2)).mergeSort
        (fun a b => decide (a ≤ b)))

/-- Model of `BCdeSession.query` from `apis.py`, restricted to the state it reads and
writes: the throttling branch (`time.sleep` when `api_credits < 3`) only
delays, and the header construction (key, nonce, signature) only feeds the
outgoing request, so neither changes the session state modelled here.  After
`query_json`, a truthy (non-empty dict) response makes Python execute
`self.api_credits = response["credits"]`, which raises `KeyError` when the
field is absent and otherwise overwrites the counter; a falsy response
(`None` or the empty dict) leaves the counter untouched.  `Except.error`
carries the session as it stands when the exception escapes. -/
def BCdeSession.query (http : String → HttpResult) (s : BCdeSession)
    (url : String) : Except (PyExn × BCdeSession) (Option JObj × BCdeSession) :=
  match query_json http url with
  | .error e => .error (e, s)
  | .ok none => .ok (none, s)
  | .ok (some body) =>
    if body.isEmpty then .ok (some body, s)
    else
      match jlookup body "credits" with
      | none => .error (.keyError "credits", s)
      | some v => .ok (some body, { s with api_credits := v })

/-- The URL built by `BCdeSession.get_public_trade_history` in `apis.py`:
start from `C_API_URL ++ "/trades/history?trading_pair=" ++ trading_pair`
and append `&since_tid=N` exactly when `since_tid` is truthy in Python,
i.e. present and non-zero. -/
def trade_history_url (since_tid : Option Nat) (trading_pair : String) :
    String :=
  let url := C_API_URL ++ "/trades/history?trading_pair=" ++ trading_pair
  match since_tid with
  | none => url
  | some n => if n ≠ 0 then url ++ "&since_tid=" ++ toString n else url

/-- Model of `BCdeSession.get_public_trade_history` from `apis.py`: build the URL and
run `self.query` on it. -/
def BCdeSession.get_public_trade_history (http : String → HttpResult)
    (s : BCdeSession) (since_tid : Option Nat) (trading_pair : String) :
    Except (PyExn × BCdeSession) (Option JObj × BCdeSession) :=
  s.query http (trade_history_url since_tid trading_pair)

/-- The constant `API_BASE_URL` set in `Shapeshift.__init__`. -/
def SHAPESHIFT_BASE_URL : String := "https://shapeshift.io"

/-- The request URL issued by `Shapeshift.recent_tx` in `apis.py`, `none`
when validation rejects the argument and no request is made.  The guard in
the source is `max_trans not in range(51)`, which for an integer argument
rejects exactly the values outside `[0, 50]` - note the lower end: `0` is
in `range(51)`, although the docstring demands `[1, 50]`. -/
def recentTxRequest (max_trans : Int) : Option String :=
  if max_trans < 0 ∨ 50 < max_trans then none
  else some (SHAPESHIFT_BASE_URL ++ "/recenttx/" ++ toString max_trans)

/-- Model of `Shapeshift.recent_tx` from `apis.py`: validate, then `query_json`. -/
def Shapeshift.recent_tx (http : String → HttpResult) (max_trans : Int) :
    Except PyExn (Option JObj) :=
  match recentTxRequest max_trans with
  | none => .ok none
  | some url => query_json http url

/-- Whether `pat` occurs as a contiguous prefix of `hay` (character lists). -/
def startsWithChars : List Char → List Char → Bool
  | [], _ => true
  | _ :: _, [] => false
  | p :: ps, c :: cs => (p = c) && startsWithChars ps cs

/-- Whether `pat` occurs contiguously somewhere in `hay` (character lists). -/
def hasSubChars (pat : List Char) : List Char → Bool
  | [] => pat.isEmpty
  | c :: cs => startsWithChars pat (c :: cs) || hasSubChars pat cs

/-- Whether `pat` occurs as a contiguous substring of `s`. -/
def occursIn (pat s : String) : Prop := hasSubChars pat.data s.data = true

instance (pat s : String) : Decidable (occursIn pat s) := by
  unfold occursIn
  infer_instance

theorem startsWithChars_append (pat rest : List Char) :
    startsWithChars pat (pat ++ rest) = true := by
  induction pat with
  | nil => rfl
  | cons p ps ih => simp [startsWithChars, ih]

theorem hasSubChars_append (a pat b : List Char) :
    hasSubChars pat (a ++ pat ++ b) = true := by
  induction a with
  | nil =>
    cases pat with
    | nil =>
      cases b with
      | nil => rfl
      | cons c cs => simp [hasSubChars, startsWithChars]
    | cons p ps =>
      simp only [List.nil_append, List.cons_append, hasSubChars,
        Bool.or_eq_true]
      exact Or.inl (by
        have h := startsWithChars_append (p :: ps) b
        simpa using h)
  | cons c cs ih =>
    simp only [List.cons_append, hasSubChars, Bool.or_eq_true]
    exact Or.inr ih

/-- Occurrence in a concatenation whose middle part is the pattern. -/
theorem occursIn_append (a pat b : String) :
    occursIn pat (a ++ pat ++ b) := by
  unfold occursIn
  rw [String.data_append, String.data_append]
  exact hasSubChars_append a.data pat.data b.data

/-- One upstream trade record as returned inside the `trades` list of the
trade-history response (`{tid, date, price, amount}`); `date` is the Unix
timestamp of the trade in seconds. -/
structure ApiTrade where
  tid : Nat
  date : Int
  price : String
  amount : String
deriving DecidableEq

/-- One row of the `Transaction` table (`models.py`): `tid` is declared
`primary_key=True`; `date` records the instant (Unix seconds) denoted by the
stored UTC-labelled datetime. -/
structure TradeRow where
  tid : Nat
  date : Int
  price : String
  amount : String
  trading_pair : String
deriving DecidableEq

/-- The relational store backing the `Transaction` model: its list of rows. -/
abbrev Store : Type := List TradeRow

/-- The tids of the rows of a store, in row order. -/
def tidsOf (s : Store) : List Nat := s.map TradeRow.tid

/-- The first row of the store with the given tid, if any. -/
def findRow (s : Store) (t : Nat) : Option TradeRow :=
  s.find? (fun x => x.tid == t)

/-- Model of `insert.save()` on a model instance with `primary_key=True` and an
explicit pk: the framework updates the existing row with that pk when there
is one and inserts a new row otherwise, so no second row with the same tid
is ever created. -/
def save (r : TradeRow) (s : Store) : Store :=
  if s.any (fun x => x.tid == r.tid) then
    s.map (fun x => if x.tid == r.tid then r else x)
  else s ++ [r]

/-- The instant denoted by the datetime stored for a trade, in Unix seconds.
In `views.py`, `datetime.fromtimestamp(float(row["date"]))` converts the
Unix time to a naive datetime in the HOST LOCAL timezone (offset `tzOff`
seconds east of UTC), and `.replace(tzinfo=timezone.utc)` then labels that
local wall clock as UTC without shifting it, so the stored datetime denotes
the instant `date + tzOff`, not `date`. -/
def storedDate (tzOff : Int) (date : Int) : Int := date + tzOff

/-- The `Transaction(...)` row constructed for one trade record in the
persist loop of the `data` view (`views.py`). -/
def mkRow (tzOff : Int) (trading_pair : String) (r : ApiTrade) : TradeRow :=
  { tid := r.tid
    date := storedDate tzOff r.date
    price := r.price
    amount := r.amount
    trading_pair := trading_pair }

/-- Run the persist loop body over a list of already-built rows. -/
def insertAll (s : Store) (rows : List TradeRow) : Store :=
  rows.foldl (fun st r => save r st) s

/-- The parsed trade-history body the `data` view consumes:
`new_trades["trading_pair"]` and `new_trades["trades"]`. -/
structure TradeResponse where
  trading_pair : String
  trades : List ApiTrade
deriving DecidableEq

/-- The persist loop of the `data` view (`views.py`): for each record of the
batch build a `Transaction` row and `save()` it. -/
def persistTrades (tzOff : Int) (tr : TradeResponse) (s : Store) : Store :=
  insertAll s (tr.trades.map (mkRow tzOff tr.trading_pair))

/-- The persist loop with a possible failure injected before the insert of
record number `failAt` (counting from 0): `Except.error` carries the partial
state at the point the exception is raised. -/
def persistLoop (tzOff : Int) (tp : String) :
    List ApiTrade → Option Nat → Store → Except Store Store
  | [], _, st => .ok st
  | _ :: _, some 0, st => .error st
  | r :: rs, some (k + 1), st =>
    persistLoop tzOff tp rs (some k) (save (mkRow tzOff tp r) st)
  | r :: rs, none, st =>
    persistLoop tzOff tp rs none (save (mkRow tzOff tp r) st)

/-- Model of `with transaction.atomic():` around a body: when the body raises, the
framework rolls the store back to its state at entry; otherwise the body
result is committed. -/
def run_atomic (s : Store) (body : Store → Except Store Store) : Store :=
  match body s with
  | .ok t => t
  | .error _ => s

/-- The store after one run of the `data` view ingestion (`views.py`),
given the (parsed) API response: `None` or a falsy body skips the loop
(`if new_trades:`); otherwise the persist loop runs inside
`transaction.atomic()`, with an optional injected failure. -/
def dataViewStore (tzOff : Int) (resp : Option TradeResponse)
    (failAt : Option Nat) (s : Store) : Store :=
  match resp with
  | none => s
  | some tr =>
    run_atomic s (fun st => persistLoop tzOff tr.trading_pair tr.trades failAt st)

theorem tidsOf_save_of_any (r : TradeRow) (s : Store)
    (h : s.any (fun x => x.tid == r.tid) = true) :
    tidsOf (save r s) = tidsOf s := by
  unfold save tidsOf
  rw [if_pos h, List.map_map]
  refine List.map_congr_left ?_
  intro x _
  by_cases hx : x.tid = r.tid
  · simp [Function.comp, hx]
  · simp [Function.comp, hx]

theorem tidsOf_save_of_none (r : TradeRow) (s : Store)
    (h : s.any (fun x => x.tid == r.tid) = false) :
    tidsOf (save r s) = tidsOf s ++ [r.tid] := by
  unfold save tidsOf
  rw [if_neg (by simp [h]), List.map_append]
  rfl

theorem nodup_save (r : TradeRow) (s : Store)
    (h : (tidsOf s).Nodup) : (tidsOf (save r s)).Nodup := by
  by_cases ha : s.any (fun x => x.tid == r.tid) = true
  · rw [tidsOf_save_of_any r s ha]
    exact h
  · rw [tidsOf_save_of_none r s (by simpa using ha)]
    have hnm : r.tid ∉ tidsOf s := by
      intro hmem
      apply ha
      rw [List.any_eq_true]
      rcases List.mem_map.mp hmem with ⟨x, hx, hxt⟩
      exact ⟨x, hx, by simp [hxt]⟩
    simp [List.nodup_append, h, hnm]

theorem findRow_save_self (r : TradeRow) (s : Store) :
    findRow (save r s) r.tid = some r := by
  unfold save findRow
  split
  · rename_i h
    induction s with
    | nil => simp at h
    | cons x xs ih =>
      by_cases hx : x.tid = r.tid
      · simp [hx]
      · have hxs : xs.any (fun y => y.tid == r.tid) = true := by
          simpa [hx] using h
        simpa [hx] using ih hxs
  · rename_i h
    have hnone : s.find? (fun x => x.tid == r.tid) = none := by
      rw [List.find?_eq_none]
      intro x hx
      intro hc
      exact absurd (List.any_eq_true.mpr ⟨x, hx, hc⟩) h
    rw [List.find?_append, hnone]
    simp

theorem find?_map_replace_other (r : TradeRow) (t : Nat)
    (xs : List TradeRow) (h : t ≠ r.tid) :
    List.find? (fun x => x.tid == t)
      (xs.map (fun x => if x.tid == r.tid then r else x))
      = List.find? (fun x => x.tid == t) xs := by
  have hr : (r.tid == t) = false := by
    simp only [beq_eq_false_iff_ne, ne_eq]
    exact fun he => h he.symm
  induction xs with
  | nil => rfl
  | cons x xs ih =>
    by_cases hx : x.tid = r.tid
    · have hxt : (x.tid == t) = false := by
        simp only [beq_eq_false_iff_ne, ne_eq, hx]
        exact fun he => h he.symm
      simp only [List.map_cons, if_pos (by simp [hx] : (x.tid == r.tid) = true)]
      rw [List.find?_cons_of_neg _ (by simp [hr]),
        List.find?_cons_of_neg _ (by simp [hxt])]
      exact ih
    · simp only [List.map_cons,
        if_neg (by simp [hx] : ¬(x.tid == r.tid) = true)]
      by_cases hxt : x.tid = t
      · rw [List.find?_cons_of_pos _ (by simp [hxt]),
          List.find?_cons_of_pos _ (by simp [hxt])]
      · rw [List.find?_cons_of_neg _ (by simp [hxt]),
          List.find?_cons_of_neg _ (by simp [hxt])]
        exact ih

theorem findRow_save_other (r : TradeRow) (s : Store) (t : Nat)
    (h : t ≠ r.tid) : findRow (save r s) t = findRow s t := by
  unfold save findRow
  split
  · exact find?_map_replace_other r t s h
  · rw [List.find?_append]
    have hr : (r.tid == t) = false := by
      simp only [beq_eq_false_iff_ne, ne_eq]
      exact fun he => h he.symm
    cases hfind : s.find? (fun x => x.tid == t) with
    | none => simp [hr]
    | some y => simp

theorem save_id (r : TradeRow) (s : Store)
    (hnd : (tidsOf s).Nodup) (h : findRow s r.tid = some r) :
    save r s = s := by
  unfold save
  unfold findRow at h
  have hany : s.any (fun x => x.tid == r.tid) = true := by
    rw [List.any_eq_true]
    refine ⟨r, List.mem_of_find?_eq_some h, ?_⟩
    have hp := List.find?_some h
    simpa using hp
  rw [if_pos hany]
  induction s with
  | nil => rfl
  | cons x xs ih =>
    have hnd' : (tidsOf xs).Nodup := by
      simpa [tidsOf] using hnd.of_cons
    by_cases hx : x.tid = r.tid
    · have hxr : x = r := by
        rw [List.find?_cons_of_pos _ (by simp [hx])] at h
        exact Option.some.inj h
      have hnm : x.tid ∉ tidsOf xs := by
        have := hnd
        simp only [tidsOf, List.map_cons, List.nodup_cons] at this
        exact this.1
      have hmap : xs.map (fun y => if y.tid = r.tid then r else y) = xs := by
        conv_rhs => rw [show xs = xs.map id from (List.map_id xs).symm]
        refine List.map_congr_left ?_
        intro y hy
        have hyt : y.tid ≠ r.tid := by
          intro he
          exact hnm (List.mem_map.mpr ⟨y, hy, he.trans hx.symm⟩)
        simp [hyt]
      simp only [List.map_cons]
      rw [if_pos (by simp [hx])]
      simp only [hxr]
      rw [show xs.map (fun y => if y.tid == r.tid then r else y)
          = xs.map (fun y => if y.tid = r.tid then r else y) by
            refine List.map_congr_left ?_
            intro y _
            by_cases hyy : y.tid = r.tid <;> simp [hyy], hmap]
    · have hfx : xs.find? (fun y => y.tid == r.tid) = some r := by
        rw [List.find?_cons_of_neg _ (by simp [hx])] at h
        exact h
      have hanyx : xs.any (fun y => y.tid == r.tid) = true := by
        rw [List.any_eq_true]
        refine ⟨r, List.mem_of_find?_eq_some hfx, ?_⟩
        have hp := List.find?_some hfx
        simpa using hp
      simp only [List.map_cons]
      rw [if_neg (by simp [hx])]
      rw [ih hnd' hfx hanyx]

theorem findRow_insertAll_not_mem (rows : List TradeRow) (s : Store) (t : Nat)
    (h : t ∉ rows.map TradeRow.tid) :
    findRow (insertAll s rows) t = findRow s t := by
  induction rows generalizing s with
  | nil => rfl
  | cons r rs ih =>
    have h1 : t ≠ r.tid := by
      intro he
      exact h (by simp [he])
    have h2 : t ∉ rs.map TradeRow.tid := by
      intro hm
      exact h (by simp [hm])
    show findRow (insertAll (save r s) rs) t = findRow s t
    rw [ih (save r s) h2, findRow_save_other r s t h1]

theorem nodup_insertAll (rows : List TradeRow) (s : Store)
    (h : (tidsOf s).Nodup) : (tidsOf (insertAll s rows)).Nodup := by
  induction rows generalizing s with
  | nil => exact h
  | cons r rs ih => exact ih (save r s) (nodup_save r s h)

theorem findRow_insertAll_mem (rows : List TradeRow) (s : Store)
    (hrows : (rows.map TradeRow.tid).Nodup) (r : TradeRow) (hr : r ∈ rows) :
    findRow (insertAll s rows) r.tid = some r := by
  induction rows generalizing s with
  | nil => cases hr
  | cons x xs ih =>
    have hx_nm : x.tid ∉ xs.map TradeRow.tid := by
      have := hrows
      simp only [List.map_cons, List.nodup_cons] at this
      exact this.1
    have hxs_nd : (xs.map TradeRow.tid).Nodup := by
      have := hrows
      simp only [List.map_cons, List.nodup_cons] at this
      exact this.2
    rcases List.mem_cons.mp hr with he | hm
    · subst he
      show findRow (insertAll (save r s) xs) r.tid = some r
      rw [findRow_insertAll_not_mem xs (save r s) r.tid hx_nm]
      exact findRow_save_self r s
    · exact ih (save x s) hxs_nd hm

theorem insertAll_id (rows : List TradeRow) (s : Store)
    (hnd : (tidsOf s).Nodup)
    (h : ∀ r ∈ rows, findRow s r.tid = some r) :
    insertAll s rows = s := by
  induction rows with
  | nil => rfl
  | cons x xs ih =>
    have hx : save x s = s := save_id x s hnd (h x (by simp))
    show insertAll (save x s) xs = s
    rw [hx]
    exact ih (fun r hr => h r (by simp [hr]))

theorem persistLoop_no_fail (tzOff : Int) (tp : String)
    (rows : List ApiTrade) (st : Store) :
    persistLoop tzOff tp rows none st
      = .ok (insertAll st (rows.map (mkRow tzOff tp))) := by
  induction rows generalizing st with
  | nil => rfl
  | cons r rs ih =>
    show persistLoop tzOff tp rs none (save (mkRow tzOff tp r) st) = _
    rw [ih (save (mkRow tzOff tp r) st)]
    rfl

theorem persistLoop_fail (tzOff : Int) (tp : String)
    (rows : List ApiTrade) (k : Nat) (st : Store)
    (h : k < rows.length) :
    ∃ st0, persistLoop tzOff tp rows (some k) st = .error st0 := by
  induction rows generalizing k st with
  | nil => exact absurd h (by simp)
  | cons r rs ih =>
    cases k with
    | zero => exact ⟨st, rfl⟩
    | succ k =>
      exact ih k (save (mkRow tzOff tp r) st) (Nat.lt_of_succ_lt_succ h)

/-- Inversion of a successful parse: `query_json` hands back a body exactly
when the oracle returned a 200 response with that parsable body. -/
theorem query_json_ok_some (http : String → HttpResult) (url : String)
    (body : JObj) (h : query_json http url = .ok (some body)) :
    ∃ r, http url = .success r ∧ r.status = 200 ∧ r.jsonBody = some body := by
  cases hr : http url with
  | raise e =>
    have hq : query_json http url = .error e := by
      unfold query_json query_url
      rw [hr]
    rw [hq] at h
    simp at h
  | success r =>
    by_cases hst : r.status = 200
    · have hq : query_json http url = .ok r.jsonBody := by
        unfold query_json query_url
        rw [hr]
        simp [hst]
      rw [hq] at h
      simp only [Except.ok.injEq] at h
      exact ⟨r, rfl, hst, h⟩
    · have hq : query_json http url = .ok none := by
        unfold query_json query_url
        rw [hr]
        simp [hst]
      rw [hq] at h
      simp at h

/-- A JSON value that is a nonnegative number. -/
def JVal.nonnegB : JVal → Bool
  | .num n => decide (0 ≤ n)
  | _ => false

/-- The server report behind one oracle answer keeps the credits field (when
there is one) nonnegative. -/
def creditsReportNonneg : HttpResult → Bool
  | .raise _ => true
  | .success r =>
    match r.jsonBody with
    | none => true
    | some body =>
      match jlookup body "credits" with
      | none => true
      | some v => v.nonnegB

theorem query_eq_error (http : String → HttpResult) (s : BCdeSession)
    (url : String) (e : PyExn) (hq : query_json http url = .error e) :
    s.query http url = .error (e, s) := by
  unfold BCdeSession.query
  rw [hq]

theorem query_eq_none (http : String → HttpResult) (s : BCdeSession)
    (url : String) (hq : query_json http url = .ok none) :
    s.query http url = .ok (none, s) := by
  unfold BCdeSession.query
  rw [hq]

theorem query_eq_empty_body (http : String → HttpResult) (s : BCdeSession)
    (url : String) (body : JObj) (hq : query_json http url = .ok (some body))
    (hemp : body.isEmpty = true) :
    s.query http url = .ok (some body, s) := by
  unfold BCdeSession.query
  rw [hq]
  simp [hemp]

theorem query_eq_nokey (http : String → HttpResult) (s : BCdeSession)
    (url : String) (body : JObj) (hq : query_json http url = .ok (some body))
    (hemp : body.isEmpty = false)
    (hl : jlookup body "credits" = none) :
    s.query http url = .error (.keyError "credits", s) := by
  unfold BCdeSession.query
  rw [hq]
  simp [hemp, hl]

theorem query_eq_credits (http : String → HttpResult) (s : BCdeSession)
    (url : String) (body : JObj) (v : JVal)
    (hq : query_json http url = .ok (some body))
    (hemp : body.isEmpty = false)
    (hl : jlookup body "credits" = some v) :
    s.query http url = .ok (some body, { s with api_credits := v }) := by
  unfold BCdeSession.query
  rw [hq]
  simp [hemp, hl]

theorem query_step_nonneg (http : String → HttpResult) (s : BCdeSession)
    (url : String) (res : Option JObj) (s' : BCdeSession)
    (h : s.query http url = .ok (res, s'))
    (hs : s.api_credits.nonnegB = true)
    (hr : creditsReportNonneg (http url) = true) :
    s'.api_credits.nonnegB = true := by
  cases hq : query_json http url with
  | error e =>
    rw [query_eq_error http s url e hq] at h
    simp at h
  | ok ob =>
    cases ob with
    | none =>
      rw [query_eq_none http s url hq] at h
      simp only [Except.ok.injEq, Prod.mk.injEq] at h
      rw [← h.2]
      exact hs
    | some body =>
      cases hemp : body.isEmpty with
      | true =>
        rw [query_eq_empty_body http s url body hq hemp] at h
        simp only [Except.ok.injEq, Prod.mk.injEq] at h
        rw [← h.2]
        exact hs
      | false =>
        cases hl : jlookup body "credits" with
        | none =>
          rw [query_eq_nokey http s url body hq hemp hl] at h
          simp at h
        | some v =>
          rw [query_eq_credits http s url body v hq hemp hl] at h
          simp only [Except.ok.injEq, Prod.mk.injEq] at h
          rw [← h.2]
          rcases query_json_ok_some http url body hq with ⟨r, hhttp, _, hbody⟩
          unfold creditsReportNonneg at hr
          rw [hhttp] at hr
          simp only [hbody, hl] at hr
          exact hr

/-- A sequence of `query` calls through one session, stopping at the first
escaping exception. -/
def runQueries (http : String → HttpResult) (s : BCdeSession) :
    List String → Except (PyExn × BCdeSession) BCdeSession
  | [] => .ok s
  | u :: us =>
    match s.query http u with
    | .error e => .error e
    | .ok (_, s') => runQueries http s' us

theorem insertionSort_eq_mergeSort_str (l : List String) :
    List.insertionSort (· ≤ ·) l = l.mergeSort (fun a b => decide (a ≤ b)) := by
  have hperm : (List.insertionSort (· ≤ ·) l).Perm
      (l.mergeSort (fun a b => decide (a ≤ b))) :=
    (List.perm_insertionSort _ l).trans (l.mergeSort_perm _).symm
  have hs1 : List.Sorted (· ≤ ·) (List.insertionSort (· ≤ ·) l) :=
    List.sorted_insertionSort _ l
  have hs2 : List.Sorted (· ≤ ·) (l.mergeSort (fun a b => decide (a ≤ b))) := by
    have h := @List.sorted_mergeSort String (fun a b => decide (a ≤ b))
      (by intro a b c hab hbc
          simp only [decide_eq_true_eq] at hab hbc ⊢
          exact le_trans hab hbc)
      (by intro a b
          simp only [Bool.or_eq_true, decide_eq_true_eq]
          exact le_total a b) l
    exact h.imp (by intro a b hab; simpa using hab)
  exact List.eq_of_perm_of_sorted hperm hs1 hs2

/-- Claim C1: for every method, URL, nonce, key pair and optional parameter
mapping, `generate_api_signature` returns the HMAC-SHA256 hex digest, keyed
by the private key, of `METHOD#URL#PUBLIC_KEY#NONCE#H`, where `H` is the MD5
hex digest of the canonical query string (each parameter rendered as
`key=value`, the rendered strings sorted lexicographically and joined with
`?`; the empty string when the mapping is absent or empty). -/
theorem generate_api_signature_correct
    (md5hex : String → String) (hmacSha256hex : String → String → String)
    (s : BCdeSession) (method url nonce : String)
    (params : Option (List (String × String))) :
    s.generate_api_signature md5hex hmacSha256hex method url nonce params
      = hmacSha256hex s.c_private_key
          (method ++ "#" ++ url ++ "#" ++ s.c_public_key ++ "#" ++ nonce ++ "#"
            ++ md5hex (canonical_query_spec params))
    ∧ canonical_query_spec none = ""
    ∧ canonical_query_spec (some []) = "" := by
  have hemp : canonical_query_spec (some []) = "" := by
    unfold canonical_query_spec
    simp only [List.map_nil, List.mergeSort_nil]
    rfl
  refine ⟨?_, rfl, hemp⟩
  unfold BCdeSession.generate_api_signature canonical_query_spec
  cases params with
  | none => rfl
  | some ps =>
    cases hps : ps.isEmpty with
    | true =>
      rw [List.isEmpty_iff.mp hps]
      simp only [List.map_nil, List.mergeSort_nil]
      rfl
    | false =>
      simp only [hps, Bool.false_eq_true, if_false,
        insertionSort_eq_mergeSort_str]

/-- Claim C2: re-running the persist loop of the data view on the same trade
batch leaves the store exactly as after one run, and the store keeps at most
one row per tid (given the tids of the incoming batch and of the prior store
are duplicate-free, as the primary key and the server-assigned ids
guarantee). -/
theorem ingest_idempotent (tzOff : Int) (tr : TradeResponse) (s : Store)
    (hs : (tidsOf s).Nodup) (hb : (tr.trades.map ApiTrade.tid).Nodup) :
    persistTrades tzOff tr (persistTrades tzOff tr s) = persistTrades tzOff tr s
    ∧ (tidsOf (persistTrades tzOff tr s)).Nodup := by
  have hrows :
      ((tr.trades.map (mkRow tzOff tr.trading_pair)).map TradeRow.tid).Nodup := by
    rw [List.map_map]
    exact hb
  constructor
  · exact insertAll_id _ _
      (nodup_insertAll (tr.trades.map (mkRow tzOff tr.trading_pair)) s hs)
      (fun r hr => findRow_insertAll_mem _ s hrows r hr)
  · exact nodup_insertAll _ s hs

theorem ingest_idempotent_witness :
    ((tidsOf ([] : Store)).Nodup
      ∧ ([⟨5, 100, "10", "1"⟩, ⟨6, 200, "11", "2"⟩].map ApiTrade.tid).Nodup)
    ∧ (persistTrades 0 ⟨"btceur", [⟨5, 100, "10", "1"⟩, ⟨6, 200, "11", "2"⟩]⟩
          (persistTrades 0
            ⟨"btceur", [⟨5, 100, "10", "1"⟩, ⟨6, 200, "11", "2"⟩]⟩ [])
        = persistTrades 0
            ⟨"btceur", [⟨5, 100, "10", "1"⟩, ⟨6, 200, "11", "2"⟩]⟩ []
      ∧ (tidsOf (persistTrades 0
          ⟨"btceur", [⟨5, 100, "10", "1"⟩, ⟨6, 200, "11", "2"⟩]⟩ [])).Nodup) :=
  ⟨⟨by decide, by decide⟩,
    ingest_idempotent 0 ⟨"btceur", [⟨5, 100, "10", "1"⟩, ⟨6, 200, "11", "2"⟩]⟩
      [] (by decide) (by decide)⟩

/-- Claim C5 (refuted by the code): `datetime.fromtimestamp` converts the
Unix timestamp using the HOST LOCAL timezone and `.replace(tzinfo=utc)` only
relabels it, so the stored datetime denotes the instant `date + tzOff`
rather than `date`: with host offset +3600 s (e.g. CET) and trade timestamp
0, the stored row denotes instant 3600.  The stored instant matches the
record exactly when the host offset is zero. -/
theorem stored_timestamp_shifts_with_host_timezone :
    (∀ tzOff date : Int,
        (mkRow tzOff "btceur" ⟨1, date, "10", "1"⟩).date = date + tzOff)
    ∧ (mkRow 3600 "btceur" ⟨1, 0, "10", "1"⟩).date = 3600
    ∧ ((3600 : Int) ≠ 0)
    ∧ (∀ tzOff date : Int, storedDate tzOff date = date ↔ tzOff = 0) := by
  refine ⟨fun _ _ => rfl, rfl, by decide, fun tzOff date => ?_⟩
  unfold storedDate
  omega

/-- Claim C6: the persistence writes of a batch are atomic.  A `None`
response (e.g. after an HTTP 500, where `query` returns `None`) leaves the
store untouched; a run without failure commits exactly the rows of the whole
batch; a failure before any insert of the batch completes rolls the store
back to its state at entry of `transaction.atomic()`. -/
theorem ingestion_atomic :
    (∀ (tzOff : Int) (failAt : Option Nat) (s : Store),
        dataViewStore tzOff none failAt s = s)
    ∧ (∀ (tzOff : Int) (tr : TradeResponse) (s : Store),
        dataViewStore tzOff (some tr) none s = persistTrades tzOff tr s)
    ∧ (∀ (tzOff : Int) (tr : TradeResponse) (k : Nat) (s : Store),
        k < tr.trades.length → dataViewStore tzOff (some tr) (some k) s = s) := by
  refine ⟨fun _ _ _ => rfl, ?_, ?_⟩
  · intro tzOff tr s
    unfold dataViewStore run_atomic
    simp only [persistLoop_no_fail]
    rfl
  · intro tzOff tr k s h
    unfold dataViewStore run_atomic
    rcases persistLoop_fail tzOff tr.trading_pair tr.trades k s h with ⟨p, hp⟩
    simp only [hp]

theorem ingestion_atomic_witness :
    (0 < [(⟨5, 100, "10", "1"⟩ : ApiTrade)].length)
    ∧ dataViewStore 0 (some ⟨"btceur", [⟨5, 100, "10", "1"⟩]⟩) (some 0) [] = [] :=
  ⟨by decide,
    ingestion_atomic.2.2 0 ⟨"btceur", [⟨5, 100, "10", "1"⟩]⟩ 0 [] (by decide)⟩

/-- Claim C3 counterexample: a transport error raised by the HTTP library is
not caught anywhere in `query_url`, so it escapes to the caller as an
exception instead of yielding the empty/None result the claim promises. -/
theorem transport_error_escapes :
    query_url (fun _ => HttpResult.raise (PyExn.transport "connection timed out"))
        "https://api.bitcoin.de/v2/trades/history?trading_pair=btceur"
      = Except.error (PyExn.transport "connection timed out")
    ∧ query_url (fun _ => HttpResult.raise (PyExn.transport "connection timed out"))
        "https://api.bitcoin.de/v2/trades/history?trading_pair=btceur"
      ≠ Except.ok none :=
  ⟨rfl, fun h => Except.noConfusion h⟩

/-- Claim C3 (amended): protocol errors (non-200 status) and decode errors
(unparsable body) are degraded to `None` without an exception, and domain
errors with `max_trans < 0` or `max_trans > 50` yield `None` without any
request being made; transport errors, however, are not caught and propagate
to the caller as exceptions. -/
theorem error_classes_amended :
    (∀ (http : String → HttpResult) (url : String) (r : HttpResponse),
        http url = .success r → r.status ≠ 200 → query_json http url = .ok none)
    ∧ (∀ (http : String → HttpResult) (url : String) (r : HttpResponse),
        http url = .success r → r.status = 200 → r.jsonBody = none →
          query_json http url = .ok none)
    ∧ (∀ (http : String → HttpResult) (m : Int), m < 0 ∨ 50 < m →
        Shapeshift.recent_tx http m = .ok none ∧ recentTxRequest m = none)
    ∧ (∀ (http : String → HttpResult) (url : String) (e : PyExn),
        http url = .raise e → query_url http url = .error e) := by
  refine ⟨?_, ?_, ?_, ?_⟩
  · intro http url r hhttp hst
    have h1 : query_url http url = .ok none := by
      unfold query_url
      rw [hhttp]
      simp [hst]
    unfold query_json
    rw [h1]
  · intro http url r hhttp hst hbody
    have h1 : query_url http url = .ok (some r) := by
      unfold query_url
      rw [hhttp]
      simp [hst]
    unfold query_json
    rw [h1]
    simp [hbody]
  · intro http m hm
    have h1 : recentTxRequest m = none := by
      unfold recentTxRequest
      rw [if_pos hm]
    refine ⟨?_, h1⟩
    unfold Shapeshift.recent_tx
    rw [h1]
  · intro http url e hhttp
    unfold query_url
    rw [hhttp]

theorem error_classes_amended_witness :
    query_json (fun _ => HttpResult.success ⟨500, some []⟩) "u" = Except.ok none
    ∧ query_json (fun _ => HttpResult.success ⟨200, none⟩) "u" = Except.ok none
    ∧ (Shapeshift.recent_tx (fun _ => HttpResult.success ⟨200, some []⟩) 51
          = Except.ok none
        ∧ recentTxRequest 51 = none)
    ∧ query_url (fun _ => HttpResult.raise (PyExn.transport "timeout")) "u"
        = Except.error (PyExn.transport "timeout") :=
  ⟨error_classes_amended.1 (fun _ => HttpResult.success ⟨500, some []⟩) "u"
      ⟨500, some []⟩ rfl (by decide),
    error_classes_amended.2.1 (fun _ => HttpResult.success ⟨200, none⟩) "u"
      ⟨200, none⟩ rfl rfl rfl,
    error_classes_amended.2.2.1 (fun _ => HttpResult.success ⟨200, some []⟩) 51
      (by decide),
    error_classes_amended.2.2.2 (fun _ => HttpResult.raise (PyExn.transport "timeout"))
      "u" (PyExn.transport "timeout") rfl⟩

/-- Claim C4: with a zero or absent high-water mark the trade-history URL
carries the trading pair and no `since_tid` filter; with mark `N > 0` it
additionally carries `since_tid=N`. -/
theorem trade_history_url_marks :
    (trade_history_url none "btceur"
        = "https://api.bitcoin.de/v2/trades/history?trading_pair=btceur")
    ∧ ¬ occursIn "since_tid" (trade_history_url none "btceur")
    ∧ trade_history_url (some 0) "btceur" = trade_history_url none "btceur"
    ∧ occursIn "trading_pair=btceur" (trade_history_url none "btceur")
    ∧ (∀ n : Nat, 0 < n →
        occursIn ("since_tid=" ++ toString n)
          (trade_history_url (some n) "btceur")) := by
  refine ⟨rfl, by decide, rfl, by decide, ?_⟩
  intro n hn
  have hne : n ≠ 0 := Nat.pos_iff_ne_zero.mp hn
  have hpos : trade_history_url (some n) "btceur"
      = (C_API_URL ++ "/trades/history?trading_pair=" ++ "btceur")
          ++ "&since_tid=" ++ toString n := by
    show (if n ≠ 0 then
          (C_API_URL ++ "/trades/history?trading_pair=" ++ "btceur")
            ++ "&since_tid=" ++ toString n
        else C_API_URL ++ "/trades/history?trading_pair=" ++ "btceur") = _
    rw [if_pos hne]
  have hurl : trade_history_url (some n) "btceur"
      = ("https://api.bitcoin.de/v2/trades/history?trading_pair=btceur&"
          ++ ("since_tid=" ++ toString n)) ++ "" := by
    rw [String.append_empty, hpos]
    rfl
  rw [hurl]
  exact occursIn_append
    "https://api.bitcoin.de/v2/trades/history?trading_pair=btceur&"
    ("since_tid=" ++ toString n) ""

theorem trade_history_url_marks_witness :
    (0 < 7)
    ∧ occursIn ("since_tid=" ++ toString 7) (trade_history_url (some 7) "btceur") :=
  ⟨by decide, trade_history_url_marks.2.2.2.2 7 (by decide)⟩

/-- Claim C7: after a `query` whose response succeeds (parses to a non-empty
object) and reports a credits value, the counter equals exactly that value,
overwriting whatever it held before; after any failed call - escaping
transport exception, protocol/decode failure (`None`), falsy empty body, or
the `KeyError` on a missing credits field - the counter is unchanged. -/
theorem quota_tracks_server_credits :
    (∀ (http : String → HttpResult) (s : BCdeSession) (url : String)
        (body : JObj) (v : JVal),
        query_json http url = .ok (some body) → body.isEmpty = false →
        jlookup body "credits" = some v →
          s.query http url = .ok (some body, { s with api_credits := v }))
    ∧ (∀ (http : String → HttpResult) (s : BCdeSession) (url : String)
        (e : PyExn), query_json http url = .error e →
          s.query http url = .error (e, s))
    ∧ (∀ (http : String → HttpResult) (s : BCdeSession) (url : String),
        query_json http url = .ok none → s.query http url = .ok (none, s))
    ∧ (∀ (http : String → HttpResult) (s : BCdeSession) (url : String)
        (body : JObj), query_json http url = .ok (some body) →
        body.isEmpty = true → s.query http url = .ok (some body, s))
    ∧ (∀ (http : String → HttpResult) (s : BCdeSession) (url : String)
        (body : JObj), query_json http url = .ok (some body) →
        body.isEmpty = false → jlookup body "credits" = none →
          s.query http url = .error (.keyError "credits", s)) :=
  ⟨fun http s url body v hq hemp hl => query_eq_credits http s url body v hq hemp hl,
    fun http s url e hq => query_eq_error http s url e hq,
    fun http s url hq => query_eq_none http s url hq,
    fun http s url body hq hemp => query_eq_empty_body http s url body hq hemp,
    fun http s url body hq hemp hl => query_eq_nokey http s url body hq hemp hl⟩

theorem quota_tracks_server_credits_witness :
    BCdeSession.query (fun _ => HttpResult.success ⟨200, some [("credits", JVal.num 11)]⟩)
        ⟨"pub", "priv", JVal.num 20⟩ "u"
      = Except.ok (some [("credits", JVal.num 11)], ⟨"pub", "priv", JVal.num 11⟩)
    ∧ BCdeSession.query (fun _ => HttpResult.success ⟨500, some []⟩)
        ⟨"pub", "priv", JVal.num 20⟩ "u"
      = Except.ok (none, ⟨"pub", "priv", JVal.num 20⟩) :=
  ⟨quota_tracks_server_credits.1
      (fun _ => HttpResult.success ⟨200, some [("credits", JVal.num 11)]⟩)
      ⟨"pub", "priv", JVal.num 20⟩ "u" [("credits", JVal.num 11)]
      (JVal.num 11) rfl rfl rfl,
    quota_tracks_server_credits.2.2.1
      (fun _ => HttpResult.success ⟨500, some []⟩)
      ⟨"pub", "priv", JVal.num 20⟩ "u" rfl⟩

/-- Claim C8 counterexample: the code stores the server-reported credits
value without any check, so a response reporting -5 drives `api_credits`
negative. -/
theorem api_credits_negative_counterexample :
    BCdeSession.query
        (fun _ => HttpResult.success ⟨200, some [("credits", JVal.num (-5))]⟩)
        ⟨"pub", "priv", JVal.num 20⟩ "https://api.bitcoin.de/v2/account"
      = Except.ok (some [("credits", JVal.num (-5))],
          ⟨"pub", "priv", JVal.num (-5)⟩)
    ∧ JVal.nonnegB (JVal.num (-5)) = false := by
  constructor
  · rfl
  · rfl

/-- Claim C8 (amended): across every sequence of `query` calls the counter
holds either the caller-supplied initial value or the last server-reported
credits value, so it stays nonnegative provided the initial value is
nonnegative and every credits value the oracle reports is nonnegative. -/
theorem api_credits_nonneg_amended (http : String → HttpResult)
    (s : BCdeSession) (urls : List String) (s' : BCdeSession)
    (h : runQueries http s urls = .ok s')
    (hs : s.api_credits.nonnegB = true)
    (hh : ∀ u, creditsReportNonneg (http u) = true) :
    s'.api_credits.nonnegB = true := by
  induction urls generalizing s with
  | nil =>
    unfold runQueries at h
    simp only [Except.ok.injEq] at h
    rw [← h]
    exact hs
  | cons u us ih =>
    unfold runQueries at h
    cases hq : s.query http u with
    | error e =>
      rw [hq] at h
      simp at h
    | ok p =>
      rw [hq] at h
      obtain ⟨res, s₁⟩ := p
      exact ih s₁ h (query_step_nonneg http s u res s₁ hq hs (hh u))

theorem api_credits_nonneg_amended_witness :
    JVal.nonnegB (BCdeSession.mk "pub" "priv" (JVal.num 7)).api_credits = true :=
  api_credits_nonneg_amended
    (fun _ => HttpResult.success ⟨200, some [("credits", JVal.num 7)]⟩)
    ⟨"pub", "priv", JVal.num 20⟩ ["u"] ⟨"pub", "priv", JVal.num 7⟩
    rfl rfl (fun _ => rfl)

/-- Claim C9 (code bug): the guard `max_trans not in range(51)` accepts 0,
although the docstring and the error message demand `[1, 50]`, so
`recent_tx 0` issues the HTTP request to `/recenttx/0` instead of returning
None without calling out; every other out-of-range integer is rejected
before the call, and in-range values pass through. -/
theorem recent_tx_zero_slips_through :
    recentTxRequest 0 = some "https://shapeshift.io/recenttx/0"
    ∧ (∀ http : String → HttpResult,
        Shapeshift.recent_tx http 0
          = query_json http "https://shapeshift.io/recenttx/0")
    ∧ recentTxRequest (-1) = none
    ∧ recentTxRequest 51 = none
    ∧ recentTxRequest 1 = some "https://shapeshift.io/recenttx/1"
    ∧ recentTxRequest 50 = some "https://shapeshift.io/recenttx/50" :=
  ⟨rfl, fun _ => rfl, rfl, rfl, rfl, rfl⟩

/-- Claim C10: whenever a `query` receives an HTTP 200 response whose body
parses to a truthy (non-empty) JSON object lacking a credits key, the call
raises `KeyError` instead of returning a result - for every oracle, URL,
session state and such body. -/
theorem query_keyerror_on_missing_credits
    (http : String → HttpResult) (s : BCdeSession) (url : String)
    (r : HttpResponse) (body : JObj)
    (hhttp : http url = .success r) (hst : r.status = 200)
    (hbody : r.jsonBody = some body)
    (htruthy : body.isEmpty = false)
    (hnokey : jlookup body "credits" = none) :
    s.query http url = .error (PyExn.keyError "credits", s) := by
  have h1 : query_url http url = .ok (some r) := by
    unfold query_url
    rw [hhttp]
    simp [hst]
  have hq : query_json http url = .ok (some body) := by
    unfold query_json
    rw [h1]
    simp [hbody]
  exact query_eq_nokey http s url body hq htruthy hnokey

theorem query_keyerror_on_missing_credits_witness :
    BCdeSession.query
        (fun _ => HttpResult.success ⟨200, some [("foo", JVal.num 1)]⟩)
        ⟨"pub", "priv", JVal.num 20⟩ "https://api.bitcoin.de/v2/account"
      = Except.error (PyExn.keyError "credits", ⟨"pub", "priv", JVal.num 20⟩) :=
  query_keyerror_on_missing_credits
    (fun _ => HttpResult.success ⟨200, some [("foo", JVal.num 1)]⟩)
    ⟨"pub", "priv", JVal.num 20⟩ "https://api.bitcoin.de/v2/account"
    ⟨200, some [("foo", JVal.num 1)]⟩ [("foo", JVal.num 1)]
    rfl rfl rfl rfl rfl
